import Mathlib

/-!
Shallow embedding of the `mymalloc` allocator (`src/mm.c`) and proofs about it.

The allocator is the CS:APP-style segregated-free-list malloc: boundary-tag
blocks, an 8-entry array of doubly-linked free lists whose heads live in a
self-allocated block at the bottom of the heap, first-fit search, split on
placement, and four-case boundary-tag coalescing.

Modelling conventions, chosen to mirror `mm.c` on a 64-bit machine:
* `WSIZE = sizeof(void *) = 8`, `DSIZE = 16` (bytes).
* Addresses are natural numbers (byte addresses); the null pointer is `0`.
  The arena is placed at `lo > 0`, so the C expression `HDRP(NULL)` lands on
  an unmapped address exactly as it does on a real machine.
* Memory is a word map `contents : Nat → Nat` read and written only at
  8-aligned addresses (the program never performs an unaligned access).
  `lo`/`hi` delimit the arena obtained by `memlib` up front; `brk` is the
  current `mem_sbrk` break.  Reads and writes outside `[lo, hi)` fault
  (`Option.none`), modelling the undefined behaviour of the C program;
  accesses between `brk` and `hi` succeed silently, exactly as they do on
  the real `memlib` arena that is `malloc`ed in one piece.
* Machine words are `Nat` values kept below `2 ^ 64`; stores reduce modulo
  `2 ^ 64` and the `size_t` subtraction in `place` is modelled by `wsub`.
* In-memory loops (`find_fit`'s list walk) take explicit fuel; exhausting
  the fuel faults, which corresponds to the C code never terminating on a
  corrupted (cyclic) list.
-/

/-- Word size in bytes: `sizeof(void *)` on the 64-bit target of `mm.c`. -/
def WSIZE : Nat := 8

/-- Double-word size in bytes: `2 * WSIZE`. -/
def DSIZE : Nat := 2 * WSIZE

/-- C macro `PACK(size, alloc) = (size) | (alloc)`.  At every call site of
`mm.c` the size is a multiple of `DSIZE` (hence even) and `alloc ∈ {0,1}`,
so the bitwise or equals addition; `PACK_eq_lor` below proves the
equivalence with the literal C expression. -/
def PACK (size alloc : Nat) : Nat := size + alloc

/-- C macro `GET_SIZE(p) = GET(p) & ~(DSIZE - 1)`: clearing the low four
bits of a 64-bit word is subtracting its residue mod 16;
`GET_SIZE_eq_land` below proves the equivalence with the literal mask. -/
def GET_SIZE (w : Nat) : Nat := w - w % 16

/-- C macro `GET_ALLOC(p) = GET(p) & 0x1`, i.e. the parity bit. -/
def GET_ALLOC (w : Nat) : Nat := w % 2

/-- For an even size and a one-bit alloc flag, `size ||| alloc` is plain
addition; this justifies the arithmetic `PACK`. -/
theorem PACK_eq_lor (size alloc : Nat) (h2 : size % 2 = 0) (ha : alloc ≤ 1) :
    size ||| alloc = PACK size alloc := by
  interval_cases alloc
  · simp [PACK]
  · apply Nat.eq_of_testBit_eq
    intro i
    cases i with
    | zero =>
      have hs0 : size.testBit 0 = false :=
        Nat.mod_two_eq_zero_iff_testBit_zero.mp h2
      have hp2 : PACK size 1 % 2 = 1 := by unfold PACK; omega
      have hp0 : (PACK size 1).testBit 0 = true :=
        Nat.mod_two_eq_one_iff_testBit_zero.mp hp2
      rw [Nat.testBit_lor, hs0, hp0, Nat.testBit_one_zero, Bool.false_or]
    | succ j =>
      rw [Nat.testBit_lor, Nat.testBit_succ, Nat.testBit_succ, Nat.testBit_succ]
      have h1 : (1 : Nat) / 2 = 0 := by norm_num
      have hps : PACK size 1 / 2 = size / 2 := by unfold PACK; omega
      rw [h1, hps, Nat.zero_testBit, Bool.or_false]

/-- For a 64-bit word, the C mask `w & ~(DSIZE-1)` (with `~(DSIZE-1)` equal
to `2^64 - 16` on `uintptr_t`) is `w - w % 16`; this justifies the
arithmetic `GET_SIZE`. -/
theorem GET_SIZE_eq_land (w : Nat) (hw : w < 2 ^ 64) :
    w &&& (2 ^ 64 - 16) = GET_SIZE w := by
  have hm : (2 : Nat) ^ 64 - 16 = 2 ^ 4 * (2 ^ 60 - 1) := by norm_num
  have hg : GET_SIZE w = 2 ^ 4 * (w / 2 ^ 4) := by unfold GET_SIZE; omega
  apply Nat.eq_of_testBit_eq
  intro i
  rw [Nat.testBit_and, hm, hg, Nat.testBit_mul_pow_two, Nat.testBit_mul_pow_two,
    Nat.testBit_two_pow_sub_one]
  rcases lt_or_le i 4 with h4 | h4
  · simp [show ¬ (i ≥ 4) from by omega]
  · have hdiv : (w / 16).testBit (i - 4) = w.testBit i := by
      rw [show (16 : Nat) = 2 ^ 4 by norm_num, ← Nat.shiftRight_eq_div_pow,
        Nat.testBit_shiftRight]
      congr 1
      omega
    rcases lt_or_le i 64 with h64 | h64
    · simp [show i ≥ 4 from h4, show i - 4 < 60 from by omega, hdiv]
    · have h1 : w.testBit i = false := by
        apply Nat.testBit_lt_two_pow
        calc w < 2 ^ 64 := hw
          _ ≤ 2 ^ i := Nat.pow_le_pow_right (by norm_num) h64
      simp [show i ≥ 4 from h4, show ¬ (i - 4 < 60) from by omega, hdiv, h1]

theorem GET_SIZE_PACK (s a : Nat) (hs : s % 16 = 0) (ha : a ≤ 1) :
    GET_SIZE (PACK s a) = s := by
  unfold GET_SIZE PACK; omega

theorem GET_ALLOC_PACK (s a : Nat) (hs : s % 16 = 0) (ha : a ≤ 1) :
    GET_ALLOC (PACK s a) = a := by
  unfold GET_ALLOC PACK; omega

theorem GET_SIZE_mod16 (w : Nat) : GET_SIZE w % 16 = 0 := by
  unfold GET_SIZE; omega

/-- The `size_t` subtraction `a - b` of C, for operands below `2^64`. -/
def wsub (a b : Nat) : Nat := (2 ^ 64 + a - b) % 2 ^ 64

theorem wsub_eq (a b : Nat) (h : b ≤ a) (ha : a < 2 ^ 64) : wsub a b = a - b := by
  unfold wsub; omega

/-- The `memlib` arena.  `contents` maps each 8-aligned byte address to the
machine word stored there; `lo`/`hi` bound the arena; `brk` is the current
break maintained by `mem_sbrk`. -/
structure Mem where
  contents : Nat → Nat
  lo : Nat
  brk : Nat
  hi : Nat

/-- An address at which a word can legally be read or written: inside the
arena and 8-aligned. -/
def validAddr (m : Mem) (p : Nat) : Prop :=
  m.lo ≤ p ∧ p + 8 ≤ m.hi ∧ p % 8 = 0

instance (m : Mem) (p : Nat) : Decidable (validAddr m p) := by
  unfold validAddr; infer_instance

/-- Write a word, reducing modulo the 64-bit word size (pure update). -/
def Mem.write (m : Mem) (p v : Nat) : Mem :=
  { m with contents := fun q => if q = p then v % 2 ^ 64 else m.contents q }

/-- C macro `GET(p)`: read the word at `p`, faulting outside the arena. -/
def mget (m : Mem) (p : Nat) : Option Nat :=
  if validAddr m p then some (m.contents p) else none

/-- C macro `PUT(p, val)`: write the word at `p`, faulting outside the
arena. -/
def mput (m : Mem) (p v : Nat) : Option Mem :=
  if validAddr m p then some (m.write p v) else none

/-- `memlib`'s `mem_sbrk(incr)`: returns the old break and advances it, or
fails (C: returns `(void *)-1`) when the arena is exhausted. -/
def mem_sbrk (m : Mem) (incr : Nat) : Option (Nat × Mem) :=
  if m.brk + incr ≤ m.hi then some (m.brk, { m with brk := m.brk + incr })
  else none

@[simp] theorem Mem.write_lo (m : Mem) (p v : Nat) : (m.write p v).lo = m.lo := rfl
@[simp] theorem Mem.write_brk (m : Mem) (p v : Nat) : (m.write p v).brk = m.brk := rfl
@[simp] theorem Mem.write_hi (m : Mem) (p v : Nat) : (m.write p v).hi = m.hi := rfl

@[simp] theorem validAddr_write (m : Mem) (p v q : Nat) :
    validAddr (m.write p v) q ↔ validAddr m q := Iff.rfl

@[simp] theorem Mem.contents_write_self (m : Mem) (p v : Nat) :
    (m.write p v).contents p = v % 2 ^ 64 := by simp [Mem.write]

theorem Mem.contents_write_ne (m : Mem) (p v q : Nat) (h : q ≠ p) :
    (m.write p v).contents q = m.contents q := by simp [Mem.write, h]

theorem mget_pos (m : Mem) (p : Nat) (h : validAddr m p) :
    mget m p = some (m.contents p) := by simp [mget, h]

theorem mput_pos (m : Mem) (p v : Nat) (h : validAddr m p) :
    mput m p v = some (m.write p v) := by simp [mput, h]

/-- C macro `HDRP(bp) = bp - WSIZE` (pure pointer arithmetic). -/
def HDRP (bp : Nat) : Nat := bp - WSIZE

/-- C macro `FTRP(bp) = bp + GET_SIZE(HDRP(bp)) - DSIZE`; reads the header. -/
def FTRP (m : Mem) (bp : Nat) : Option Nat := do
  let h ← mget m (HDRP bp)
  some (bp + GET_SIZE h - DSIZE)

/-- C macro `NEXT_BLKP(bp) = bp + GET_SIZE(bp - WSIZE)`; reads the header. -/
def NEXT_BLKP (m : Mem) (bp : Nat) : Option Nat := do
  let h ← mget m (bp - WSIZE)
  some (bp + GET_SIZE h)

/-- C macro `PREV_BLKP(bp) = bp - GET_SIZE(bp - DSIZE)`; reads the previous
block's footer. -/
def PREV_BLKP (m : Mem) (bp : Nat) : Option Nat := do
  let f ← mget m (bp - DSIZE)
  some (bp - GET_SIZE f)

/-- The allocator's global state: the arena plus the three globals of
`mm.c` (`heap_listp`, `free_listp`, `failedsize`). -/
structure MM where
  mem : Mem
  heap_listp : Nat
  free_listp : Nat
  failedsize : Nat

/-- Source `find_list(size)`: map a block size to its free-list index. -/
def find_list (size : Nat) : Nat :=
  if size ≤ 64 then 0
  else if size ≤ 128 then 1
  else if size ≤ 256 then 2
  else if size ≤ 512 then 3
  else if size ≤ 1024 then 4
  else if size ≤ 2048 then 5
  else if size ≤ 4096 then 6
  else 7

/-- Source `insert_free(asize, bp)`: push `bp` on the front of the list for
class `find_list(asize)`.  The `prev` link of a free block lives at byte
offset `0` of its payload and the `next` link at offset `WSIZE`; the head
array slot for index `idx` is the word at `free_listp + WSIZE * idx`. -/
def insert_free (s : MM) (asize bp : Nat) : Option MM := do
  let idx := find_list asize
  let head ← mget s.mem (s.free_listp + WSIZE * idx)
  if head = 0 then do
    let m₁ ← mput s.mem (s.free_listp + WSIZE * idx) bp
    let m₂ ← mput m₁ (bp + WSIZE) 0
    let m₃ ← mput m₂ bp 0
    some { s with mem := m₃ }
  else do
    let m₁ ← mput s.mem (bp + WSIZE) head
    let m₂ ← mput m₁ bp 0
    let m₃ ← mput m₂ head bp
    let m₄ ← mput m₃ (s.free_listp + WSIZE * idx) bp
    some { s with mem := m₄ }

/-- Source `remove_free(bp)`: unlink `bp` from the list of its size class,
relying on `prev == NULL` to recognise the head. -/
def remove_free (s : MM) (bp : Nat) : Option MM := do
  let h ← mget s.mem (HDRP bp)
  let size := GET_SIZE h
  let list := find_list size
  let prev ← mget s.mem bp
  if prev = 0 then do
    let next ← mget s.mem (bp + WSIZE)
    if next ≠ 0 then do
      let m₁ ← mput s.mem next 0
      let m₂ ← mput m₁ (s.free_listp + WSIZE * list) next
      some { s with mem := m₂ }
    else do
      let m₁ ← mput s.mem (s.free_listp + WSIZE * list) 0
      some { s with mem := m₁ }
  else do
    let next ← mget s.mem (bp + WSIZE)
    if next = 0 then do
      let m₁ ← mput s.mem (prev + WSIZE) 0
      some { s with mem := m₁ }
    else do
      let m₁ ← mput s.mem (prev + WSIZE) next
      let m₂ ← mput m₁ next prev
      some { s with mem := m₂ }

/-- Body of `coalesce`'s case 1 (prev and next allocated): insert, return
the block itself.  (The case bodies are split into their own definitions
because one monolithic `do` block makes the elaborator blow up.) -/
def coalesce_case1 (s : MM) (bp size : Nat) : Option (Nat × MM) := do
  let s₁ ← insert_free s size bp
  some (bp, s₁)

/-- Body of `coalesce`'s case 2 (prev allocated, next free): unlink the
next block, extend the size by its size, rewrite header at `bp` and footer
at the new tail (the `FTRP` macro re-reads the just-written header), insert
the merged block, return `bp`. -/
def coalesce_case2 (s : MM) (bp size : Nat) : Option (Nat × MM) := do
  let nb₁ ← NEXT_BLKP s.mem bp
  let s₁ ← remove_free s nb₁
  let nb₂ ← NEXT_BLKP s₁.mem bp
  let nh₂ ← mget s₁.mem (HDRP nb₂)
  let size₂ := size + GET_SIZE nh₂
  let m₁ ← mput s₁.mem (HDRP bp) (PACK size₂ 0)
  let f ← FTRP m₁ bp
  let m₂ ← mput m₁ f (PACK size₂ 0)
  let s₂ ← insert_free { s₁ with mem := m₂ } size₂ bp
  some (bp, s₂)

/-- Body of `coalesce`'s case 3 (prev free, next allocated): unlink the
previous block, extend the size by its size, rewrite footer at `bp`'s old
tail (the header at `bp` is still unchanged when `FTRP` reads it) and
header at the previous block, insert, return the previous block's
payload. -/
def coalesce_case3 (s : MM) (bp size : Nat) : Option (Nat × MM) := do
  let pb₁ ← PREV_BLKP s.mem bp
  let s₁ ← remove_free s pb₁
  let pb₂ ← PREV_BLKP s₁.mem bp
  let ph₂ ← mget s₁.mem (HDRP pb₂)
  let size₂ := size + GET_SIZE ph₂
  let f ← FTRP s₁.mem bp
  let m₁ ← mput s₁.mem f (PACK size₂ 0)
  let pb₃ ← PREV_BLKP m₁ bp
  let m₂ ← mput m₁ (HDRP pb₃) (PACK size₂ 0)
  let bp₂ ← PREV_BLKP m₂ bp
  let s₂ ← insert_free { s₁ with mem := m₂ } size₂ bp₂
  some (bp₂, s₂)

/-- Second half of `coalesce`'s case 4 (split off only to keep the
compiled chain short): with both neighbors already unlinked and the merged
size computed, rewrite header at the previous block and footer at the next
block's old tail, insert, return the previous block's payload. -/
def coalesce_case4_tags (s₂ : MM) (bp size₂ : Nat) : Option (Nat × MM) := do
  let pb₃ ← PREV_BLKP s₂.mem bp
  let m₁ ← mput s₂.mem (HDRP pb₃) (PACK size₂ 0)
  let nb₃ ← NEXT_BLKP m₁ bp
  let fa₂ ← FTRP m₁ nb₃
  let m₂ ← mput m₁ fa₂ (PACK size₂ 0)
  let bp₂ ← PREV_BLKP m₂ bp
  let s₃ ← insert_free { s₂ with mem := m₂ } size₂ bp₂
  some (bp₂, s₃)

/-- Body of `coalesce`'s case 4 (both neighbors free): unlink both, extend
the size by the previous block's header size and the next block's footer
size, then rewrite the tags and insert (`coalesce_case4_tags`). -/
def coalesce_case4 (s : MM) (bp size : Nat) : Option (Nat × MM) := do
  let nb₁ ← NEXT_BLKP s.mem bp
  let s₁ ← remove_free s nb₁
  let pb₁ ← PREV_BLKP s₁.mem bp
  let s₂ ← remove_free s₁ pb₁
  let pb₂ ← PREV_BLKP s₂.mem bp
  let ph₂ ← mget s₂.mem (HDRP pb₂)
  let nb₂ ← NEXT_BLKP s₂.mem bp
  let fa ← FTRP s₂.mem nb₂
  let fw ← mget s₂.mem fa
  let size₂ := size + GET_SIZE ph₂ + GET_SIZE fw
  coalesce_case4_tags s₂ bp size₂

/-- Source `coalesce(bp)`: four-case boundary-tag coalescing, re-reading
the boundary tags exactly where the C macros do.  The case bodies are the
four `coalesce_case*` definitions above. -/
def coalesce (s : MM) (bp : Nat) : Option (Nat × MM) := do
  let h ← mget s.mem (HDRP bp)
  let size := GET_SIZE h
  let pb ← PREV_BLKP s.mem bp
  let ph ← mget s.mem (HDRP pb)
  let prev_alloc := GET_ALLOC ph
  let nb ← NEXT_BLKP s.mem bp
  let nh ← mget s.mem (HDRP nb)
  let next_alloc := GET_ALLOC nh
  if prev_alloc ≠ 0 ∧ next_alloc ≠ 0 then coalesce_case1 s bp size
  else if prev_alloc ≠ 0 ∧ next_alloc = 0 then coalesce_case2 s bp size
  else if prev_alloc = 0 ∧ next_alloc ≠ 0 then coalesce_case3 s bp size
  else coalesce_case4 s bp size

/-- The size computation of `extend_heap`:
`size = (words % 2) ? (words + 1) * WSIZE : words * WSIZE`. -/
def roundWords (words : Nat) : Nat :=
  if words % 2 = 1 then (words + 1) * WSIZE else words * WSIZE

theorem roundWords_mod16 (words : Nat) : roundWords words % 16 = 0 := by
  unfold roundWords WSIZE
  rcases Nat.mod_two_eq_zero_or_one words with h | h <;> simp [h] <;> omega

theorem roundWords_of_even (words : Nat) (h : words % 2 = 0) :
    roundWords words = words * WSIZE := by
  unfold roundWords
  simp [h]

/-- Source `extend_heap(words)`: round up to an even word count, `mem_sbrk`,
stamp the new free block's header, footer and a fresh epilogue header.
Returns `0` (C: `NULL`) with the state unchanged when `mem_sbrk` fails.
Note: the `mm.c` version does NOT call `coalesce` and does not insert the
new block into any free list (its callers place with `remove_flag == 0`). -/
def extend_heap (s : MM) (words : Nat) : Option (Nat × MM) :=
  let size := roundWords words
  match mem_sbrk s.mem size with
  | none => some (0, s)
  | some (bp, m₀) => do
    let m₁ ← mput m₀ (HDRP bp) (PACK size 0)
    let f ← FTRP m₁ bp
    let m₂ ← mput m₁ f (PACK size 0)
    let nb ← NEXT_BLKP m₂ bp
    let m₃ ← mput m₂ (HDRP nb) (PACK 0 1)
    some (bp, { s with mem := m₃ })

/-- Inner loop of `find_fit`: walk one free list, returning the first block
whose recorded size is at least `asize`, `0` when the list is exhausted,
and faulting when the fuel runs out (a cyclic list never terminates in C). -/
def scanList (m : Mem) (fuel cur asize : Nat) : Option Nat :=
  match fuel with
  | 0 => none
  | fuel + 1 =>
    if cur = 0 then some 0
    else do
      let h ← mget m (HDRP cur)
      if asize ≤ GET_SIZE h then some cur
      else do
        let nxt ← mget m (cur + WSIZE)
        scanList m fuel nxt asize

/-- Outer loop of `find_fit`: lists `idx, idx+1, …, 7` in order.  `rem`
only counts the remaining iterations of the C loop `while (idx < 8)`
(structurally, so that the kernel can evaluate the function); any
`rem ≥ 8 - idx` gives the loop's exact behaviour thanks to the
`8 ≤ idx` guard. -/
def find_fitAux (s : MM) (fuel asize : Nat) : Nat → Nat → Option Nat
  | _, 0 => some 0
  | idx, rem + 1 =>
    if 8 ≤ idx then some 0
    else do
      let head ← mget s.mem (s.free_listp + WSIZE * idx)
      let r ← scanList s.mem fuel head asize
      if r ≠ 0 then some r else find_fitAux s fuel asize (idx + 1) rem

/-- Source `find_fit(asize)`: first-fit search starting at class
`find_list(asize)`. -/
def find_fit (s : MM) (fuel asize : Nat) : Option Nat :=
  find_fitAux s fuel asize (find_list asize) (8 - find_list asize)

/-- Source `place(bp, asize, remove_flag)`: install an allocated block of
`asize` bytes at `bp`, unlinking first when `remove_flag` is set and
splitting when the remainder reaches the minimum block size.  The C
comparison `(csize - asize) >= 2 * DSIZE` is on `size_t`, hence `wsub`. -/
def place (s : MM) (bp asize : Nat) (remove_flag : Bool) : Option MM := do
  let h ← mget s.mem (HDRP bp)
  let csize := GET_SIZE h
  let s₁ ← if remove_flag then remove_free s bp else some s
  if 2 * DSIZE ≤ wsub csize asize then do
    let m₁ ← mput s₁.mem (HDRP bp) (PACK asize 1)
    let f ← FTRP m₁ bp
    let m₂ ← mput m₁ f (PACK asize 1)
    let bp₂ ← NEXT_BLKP m₂ bp
    let m₃ ← mput m₂ (HDRP bp₂) (PACK (wsub csize asize) 0)
    let f₂ ← FTRP m₃ bp₂
    let m₄ ← mput m₃ f₂ (PACK (wsub csize asize) 0)
    insert_free { s₁ with mem := m₄ } (wsub csize asize) bp₂
  else do
    let m₁ ← mput s₁.mem (HDRP bp) (PACK csize 1)
    let f ← FTRP m₁ bp
    let m₂ ← mput m₁ f (PACK csize 1)
    some { s₁ with mem := m₂ }

/-- The size adjustment of `mm_malloc`/`mm_realloc` (`mm.c` lines 285-288
and 377-380): overhead plus double-word alignment, on `size_t`
arithmetic. -/
def adjust (size : Nat) : Nat :=
  if size ≤ DSIZE then 2 * DSIZE
  else DSIZE * (((size + DSIZE + (DSIZE - 1)) % 2 ^ 64) / DSIZE)

/-- The `extend_heap`-then-`place` tail that `mm_malloc` contains twice
(once in the `asize == failedsize` shortcut, once after a failed fit
search; in the latter the caller has already stored `failedsize`): extend
by `asize / WSIZE` words, return `NULL` if that failed, otherwise place
without unlinking. -/
def malloc_extend_place (s : MM) (asize : Nat) : Option (Nat × MM) := do
  let (bp, s₁) ← extend_heap s (asize / WSIZE)
  if bp = 0 then some (0, s₁)
  else do
    let s₂ ← place s₁ bp asize false
    some (bp, s₂)

/-- Source `mm_malloc(size)`.  Returns the payload pointer (`0` = `NULL`)
and the new state. -/
def mm_malloc (s : MM) (fuel size : Nat) : Option (Nat × MM) :=
  if size = 0 then some (0, s)
  else
    let asize := adjust size
    if asize = s.failedsize then malloc_extend_place s asize
    else do
      let r ← find_fit s fuel asize
      if r ≠ 0 then do
        let s₁ ← place s r asize true
        some (r, s₁)
      else malloc_extend_place { s with failedsize := asize } asize

/-- Source `mm_free(bp)`. -/
def mm_free (s : MM) (bp : Nat) : Option MM :=
  if bp = 0 then some s
  else do
    let h ← mget s.mem (HDRP bp)
    let size := GET_SIZE h
    let s₁ := if size = s.failedsize then { s with failedsize := 0 } else s
    let m₁ ← mput s₁.mem (HDRP bp) (PACK size 0)
    let f ← FTRP m₁ bp
    let m₂ ← mput m₁ f (PACK size 0)
    let (_, s₂) ← coalesce { s₁ with mem := m₂ } bp
    some s₂

/-- Word-by-word `memcpy(dst, src, 8 * n)`; every copy in `mm.c` moves a
multiple of `DSIZE` bytes, so the word granularity is exact. -/
def memcpyWords (m : Mem) (dst src n : Nat) : Option Mem :=
  match n with
  | 0 => some m
  | n + 1 => do
    let v ← mget m src
    let m₁ ← mput m dst v
    memcpyWords m₁ (dst + WSIZE) (src + WSIZE) n

/-- The loop `for (i = 0; i < 8; i++) free_listp[i] = NULL;` of `mm_init`:
zero the head words from index `i` up to (excluding) 8.  The last argument
counts the remaining iterations structurally (any value `≥ 8 - i` gives
the loop's exact behaviour thanks to the `8 ≤ i` guard). -/
def zeroHeads : Mem → Nat → Nat → Nat → Option Mem
  | m, _, _, 0 => some m
  | m, startp, i, rem + 1 =>
    if 8 ≤ i then some m
    else do
      let m₁ ← mput m (startp + WSIZE * i) 0
      zeroHeads m₁ startp (i + 1) rem

/-- Second half of `mm_init` (split off only to keep the compiled chain
short): lay the free-list head-array block down at `startp`.  Note the
source writes its second epilogue word at `NEXT_BLKP(startp)` — the
payload position of the following block — rather than at the header
position `HDRP(NEXT_BLKP(startp))`. -/
def mm_init_lists (s : MM) (hl₂ : Nat) (startp : Nat) (m₅ : Mem) :
    Option (Int × MM) := do
  let m₆ ← mput m₅ (HDRP startp) (PACK (10 * WSIZE) 1)
  let f ← FTRP m₆ startp
  let m₇ ← mput m₆ f (PACK (10 * WSIZE) 1)
  let nb ← NEXT_BLKP m₇ startp
  let m₈ ← mput m₇ nb (PACK 0 1)
  let m₉ ← zeroHeads m₈ startp 0 8
  some (0, { mem := m₉, heap_listp := hl₂, free_listp := startp,
             failedsize := s.failedsize })

/-- Source `mm_init()`.  Returns the C result (`0` or `-1`) and the new
state. -/
def mm_init (s : MM) : Option (Int × MM) :=
  match mem_sbrk s.mem (4 * WSIZE) with
  | none => some (-1, s)
  | some (hl, m₀) => do
    let m₁ ← mput m₀ hl 0
    let m₂ ← mput m₁ (hl + 1 * WSIZE) (PACK DSIZE 1)
    let m₃ ← mput m₂ (hl + 2 * WSIZE) (PACK DSIZE 1)
    let m₄ ← mput m₃ (hl + 3 * WSIZE) (PACK 0 1)
    let hl₂ := hl + 2 * WSIZE
    match mem_sbrk m₄ (10 * WSIZE) with
    | none => some (-1, { s with mem := m₄, heap_listp := hl₂ })
    | some (startp, m₅) => mm_init_lists s hl₂ startp m₅

/-- The grow-at-tail branch of `mm_realloc` (next block is the epilogue):
extend the heap by `(asize - oldsize) / WSIZE` words — IGNORING the result
of `extend_heap`, exactly as the source does — then restamp `ptr`'s header
and footer with `(asize, 1)` and return `ptr`. -/
def realloc_tail_extend (s : MM) (ptr asize oldsize : Nat) :
    Option (Nat × MM) := do
  let (_, s₁) ← extend_heap s ((asize - oldsize) / WSIZE)
  let m₁ ← mput s₁.mem (HDRP ptr) (PACK asize 1)
  let f ← FTRP m₁ ptr
  let m₂ ← mput m₁ f (PACK asize 1)
  some (ptr, { s₁ with mem := m₂ })

/-- The relocation branch of `mm_realloc`: `mm_malloc(size)`,
`memcpy(newptr, ptr, oldsize)` (note: `oldsize` bytes, the whole old block
size, not the old payload size), `mm_free(ptr)`, return `newptr`.  The
source does not test `newptr` for `NULL` before the `memcpy`. -/
def realloc_relocate (s : MM) (fuel ptr size oldsize : Nat) :
    Option (Nat × MM) := do
  let (newptr, s₁) ← mm_malloc s fuel size
  let m₁ ← memcpyWords s₁.mem newptr ptr (oldsize / WSIZE)
  let s₂ ← mm_free { s₁ with mem := m₁ } ptr
  some (newptr, s₂)

/-- Source `mm_realloc(ptr, size)`.  Faithful to the source's statement
order: the header of `ptr` is read before either the `size == 0` or the
`ptr == NULL` test. -/
def mm_realloc (s : MM) (fuel ptr size : Nat) : Option (Nat × MM) := do
  let h ← mget s.mem (HDRP ptr)
  let oldsize := GET_SIZE h
  let asize := adjust size
  if size = 0 then do
    let s₁ ← mm_free s ptr
    some (0, s₁)
  else if ptr = 0 then
    mm_malloc s fuel size
  else if asize ≤ oldsize then
    some (ptr, s)
  else do
    let nb ← NEXT_BLKP s.mem ptr
    let nh ← mget s.mem (HDRP nb)
    if GET_SIZE nh = 0 then realloc_tail_extend s ptr asize oldsize
    else realloc_relocate s fuel ptr size oldsize

/-- A fresh `memlib` arena of `hi - 16` usable bytes: zero-initialised
contents, base (and initial break) at byte 16, so that address `0` (the
null pointer) and the word below it are unmapped. -/
def arena (hi : Nat) : Mem :=
  { contents := fun _ => 0, lo := 16, brk := 16, hi := hi }

/-- The allocator state before `mm_init`: fresh arena, all globals zero. -/
def mmStart (hi : Nat) : MM :=
  { mem := arena hi, heap_listp := 0, free_listp := 0, failedsize := 0 }

/-- Extract the state component of an operation's result (the default is
never used on the concrete runs below, all of which succeed). -/
def getS {α : Type} (o : Option (α × MM)) (d : MM) : MM :=
  match o with
  | some (_, s) => s
  | none => d

/-- State after `mm_init` on a 4096-byte arena.  The prologue payload is at
32, the free-list head array block at 48 (header 40, footer 112), and the
break at 128. -/
def S0 : MM := getS (mm_init (mmStart 4112)) (mmStart 4112)

/-- State after `mm_malloc(1)` on `S0`: a 32-byte allocated block with
payload 128 (header 120, footer 144) at the top of the heap, break 160,
`failedsize = 32`. -/
def S1 : MM := getS (mm_malloc S0 20 1) S0

/-- State after `mm_free(128)` on `S1`: the 32-byte block at payload 128 is
free, is the head of size-class list 0, and is the last block before the
epilogue. -/
def S2f : MM := match mm_free S1 128 with | some s => s | none => S1

/-- State after a second `mm_malloc(1)` on `S1` (taken through the
`failedsize` shortcut): allocated 32-byte blocks at payloads 128 and 160,
break 192. -/
def S2 : MM := getS (mm_malloc S1 20 1) S1

/-- Same two steps as `S0`/`S1` but on an arena of only 232 usable bytes
(`hi = 248`): after `mm_init` and `mm_malloc(1)` the break is 160, so the
88 remaining bytes cannot satisfy the 96-byte extension that
`mm_realloc(128, 100)` will request. -/
def S0s : MM := getS (mm_init (mmStart 248)) (mmStart 248)

/-- See `S0s`. -/
def S1s : MM := getS (mm_malloc S0s 20 1) S0s

/-- C1: the claim fails on the code.  `mm_realloc` executes
`oldsize = GET_SIZE(HDRP(ptr))` as its very first statement, before the
`ptr == NULL` dispatch, so `mm_realloc(NULL, 24)` reads the word at
address `NULL - WSIZE` — an unmapped address, hence a fault in the model
and undefined behaviour in C — while `mm_malloc(24)` on the same state
succeeds and returns payload 128.  The two calls are therefore not
equivalent, and a block-header-position read does happen before the
null-pointer case is dispatched. -/
theorem c1_realloc_null_reads_header_first :
    mget S0.mem (HDRP 0) = none ∧
    (mm_realloc S0 20 0 24).map Prod.fst = none ∧
    (mm_malloc S0 20 24).map Prod.fst = some 128 := by decide

/-- C2: the claim fails on the code for `mm_realloc`.  On `S1s` (one
32-byte allocated block with payload 128 at the top of a nearly exhausted
arena), `mm_realloc(128, 100)` takes the grow-at-tail branch and calls
`extend_heap` for 96 bytes; the underlying `mem_sbrk` fails, but the code
ignores `extend_heap`'s result, restamps the block's header from
`(32, 1)` to `(128, 1)` and returns `128` — a non-null pointer and a
modified heap after a failed arena extension. -/
theorem c2_realloc_ignores_failed_extend :
    (mem_sbrk S1s.mem 96).map Prod.fst = none ∧
    S1s.mem.contents (HDRP 128) = PACK 32 1 ∧
    (mm_realloc S1s 20 128 100).map Prod.fst = some 128 ∧
    (mm_realloc S1s 20 128 100).map (fun r => r.2.mem.contents (HDRP 128)) =
      some (PACK 128 1) := by decide

/-- C3: the claim fails on the code.  After a successful `mm_init` the
prologue header (word 24) and footer (word 32) both hold `PACK(DSIZE, 1)`
as claimed, and the block after the free-list head-array block starts at
payload 128; but the word at that block's header position (120) was never
written and still holds `0`, which encodes `(0, free)`, not
`(0, allocated)` — `mm_init` wrote its `PACK(0, 1)` epilogue word at
`NEXT_BLKP(startp)` (word 128, one word further and past the sbrk break)
instead of at `HDRP(NEXT_BLKP(startp))`. -/
theorem c3_init_epilogue_misplaced :
    (mm_init (mmStart 4112)).map Prod.fst = some 0 ∧
    S0.heap_listp = 32 ∧
    S0.mem.contents (HDRP S0.heap_listp) = PACK DSIZE 1 ∧
    S0.mem.contents S0.heap_listp = PACK DSIZE 1 ∧
    S0.free_listp = 48 ∧
    NEXT_BLKP S0.mem S0.free_listp = some 128 ∧
    S0.mem.contents (HDRP 128) = 0 ∧
    GET_ALLOC (S0.mem.contents (HDRP 128)) = 0 ∧
    S0.mem.contents 128 = PACK 0 1 ∧
    S0.mem.brk = 128 := by decide

/-- C4: counterexample to the claim as stated.  In `S2f` the block before
the epilogue (payload 128, size 32) is free and is the head of size-class
list 0.  A successful `extend_heap(4)` stamps a fresh 32-byte free block
at payload 160, adjacent to that free predecessor, and returns `160`: it
does not merge (the new header at 152 and the predecessor's header at 120
both still record size 32, not 64), it does not insert the new block into
any free list (the class-0 head is still 128), and it returns the new
block's payload rather than the coalesced block's payload 128. -/
theorem c4_extend_heap_no_coalesce_cex :
    S2f.mem.contents (HDRP 128) = PACK 32 0 ∧
    S2f.mem.contents (S2f.free_listp + WSIZE * 0) = 128 ∧
    (extend_heap S2f 4).map Prod.fst = some 160 ∧
    (extend_heap S2f 4).map (fun r => r.2.mem.contents (HDRP 160)) =
      some (PACK 32 0) ∧
    (extend_heap S2f 4).map (fun r => r.2.mem.contents (HDRP 128)) =
      some (PACK 32 0) ∧
    (extend_heap S2f 4).map
        (fun r => r.2.mem.contents (r.2.free_listp + WSIZE * 0)) =
      some 128 := by decide

/-- C5: counterexample to the claim as stated.  In `S2` (allocated 32-byte
blocks at payloads 128 and 160), `mm_realloc(128, 40)` relocates to a new
64-byte block at payload 192.  The old payload is `old − DSIZE = 16`
bytes (words 192 and 200 of the destination); had only it been copied,
destination words 208 and 216 — zero beforehand — would stay zero.  They
end up holding `PACK 32 1 = 33`, the old block's footer and the next
block's header: the code copies `old = 32` bytes, not `old − DSIZE`. -/
theorem c5_realloc_copies_old_bytes_cex :
    S2.mem.contents 208 = 0 ∧
    S2.mem.contents 216 = 0 ∧
    S2.mem.contents 144 = PACK 32 1 ∧
    S2.mem.contents 152 = PACK 32 1 ∧
    (mm_realloc S2 20 128 40).map Prod.fst = some 192 ∧
    (mm_realloc S2 20 128 40).map
        (fun r => (r.2.mem.contents 208, r.2.mem.contents 216)) =
      some (33, 33) := by decide

/-- C8: counterexample to the claim as stated.  The adjustment is
performed in `size_t` arithmetic, so for `size = 2^64 - 1` the sum
`size + DSIZE + (DSIZE - 1)` wraps and `adjust` returns 16 — less than
the minimum block size `2 * DSIZE` — while the claimed value
`DSIZE * ⌈(size + DSIZE) / DSIZE⌉` (written with the usual natural-number
ceiling division) is astronomically larger. -/
theorem c8_adjust_overflow_cex :
    adjust (2 ^ 64 - 1) = 16 ∧
    adjust (2 ^ 64 - 1) < 2 * DSIZE ∧
    DSIZE * ((2 ^ 64 - 1 + DSIZE + (DSIZE - 1)) / DSIZE) ≠ adjust (2 ^ 64 - 1) := by
  decide

theorem adjust_mod16 (size : Nat) : adjust size % 16 = 0 := by
  unfold adjust DSIZE WSIZE
  split <;> omega

/-- C8 (amended): in the absence of `size_t` overflow — i.e. whenever
`size + DSIZE + (DSIZE - 1) < 2^64` — the adjusted block size equals
`2 * DSIZE` for requests of at most `DSIZE` bytes and
`DSIZE * ⌈(size + DSIZE) / DSIZE⌉` (the natural-number ceiling, written
`(size + DSIZE + (DSIZE - 1)) / DSIZE`) otherwise; and the particular
requests of `1`, `DSIZE - 1`, `DSIZE` and `DSIZE + 1` bytes all yield
block sizes that are at least the minimum block size `2 * DSIZE` and are
multiples of `DSIZE`. -/
theorem c8_adjust_formula :
    (∀ size : Nat, size + DSIZE + (DSIZE - 1) < 2 ^ 64 →
      adjust size = if size ≤ DSIZE then 2 * DSIZE
        else DSIZE * ((size + DSIZE + (DSIZE - 1)) / DSIZE)) ∧
    (2 * DSIZE ≤ adjust 1 ∧ adjust 1 % DSIZE = 0) ∧
    (2 * DSIZE ≤ adjust (DSIZE - 1) ∧ adjust (DSIZE - 1) % DSIZE = 0) ∧
    (2 * DSIZE ≤ adjust DSIZE ∧ adjust DSIZE % DSIZE = 0) ∧
    (2 * DSIZE ≤ adjust (DSIZE + 1) ∧ adjust (DSIZE + 1) % DSIZE = 0) := by
  refine ⟨fun size h => ?_, by decide, by decide, by decide, by decide⟩
  unfold adjust
  rw [Nat.mod_eq_of_lt h]

/-- Witness for `c8_adjust_formula` at the concrete request `size = 100`. -/
theorem c8_adjust_formula_witness :
    100 + DSIZE + (DSIZE - 1) < 2 ^ 64 ∧
    adjust 100 = if (100 : Nat) ≤ DSIZE then 2 * DSIZE
      else DSIZE * ((100 + DSIZE + (DSIZE - 1)) / DSIZE) :=
  ⟨by norm_num [DSIZE, WSIZE], c8_adjust_formula.1 100 (by norm_num [DSIZE, WSIZE])⟩

/-- C9: when the adjusted size of a non-zero request equals the sticky
`failedsize` recorded by a previous failed fit search, `mm_malloc` performs
no fit search at all: it goes straight to the extend-then-place tail
(`malloc_extend_place`, which contains no call to `find_fit`), and the
heap extension it requests is exactly the adjusted size —
`roundWords (asize / WSIZE) = asize`, because the adjusted size is a
multiple of `DSIZE`, so `extend_heap`'s rounding is the identity and the
`mem_sbrk` increment is `asize` bytes. -/
theorem c9_malloc_sticky_skips_search :
    ∀ (s : MM) (fuel size : Nat), size ≠ 0 → adjust size = s.failedsize →
      mm_malloc s fuel size = malloc_extend_place s (adjust size) ∧
      roundWords (adjust size / WSIZE) = adjust size := by
  intro s fuel size h0 hs
  constructor
  · unfold mm_malloc
    rw [if_neg h0, if_pos hs]
  · have h16 := adjust_mod16 size
    have heven : (adjust size / WSIZE) % 2 = 0 := by unfold WSIZE; omega
    rw [roundWords_of_even _ heven]
    unfold WSIZE
    omega

/-- Witness for `c9_malloc_sticky_skips_search`: in `S1` the previous
`mm_malloc(1)` recorded `failedsize = 32 = adjust 1`, so a second
`mm_malloc(1)` takes the shortcut. -/
theorem c9_malloc_sticky_skips_search_witness :
    (1 : Nat) ≠ 0 ∧ adjust 1 = S1.failedsize ∧
    (mm_malloc S1 20 1 = malloc_extend_place S1 (adjust 1) ∧
      roundWords (adjust 1 / WSIZE) = adjust 1) :=
  ⟨by decide, by decide, c9_malloc_sticky_skips_search S1 20 1 (by decide) (by decide)⟩

/-- C5 (amended): in `mm_realloc`'s relocation case — non-null `ptr`,
non-zero `size`, adjusted size strictly larger than the old block size
`old = GET_SIZE hw`, next block's header size non-zero (not the epilogue)
— the call is exactly: inner `mm_malloc(size)`, then a copy of exactly
`old / WSIZE` words (i.e. `old` bytes: the old payload plus the old footer
word and the following header word) from the old payload address to the
new payload, then `mm_free` of the old block, returning the new payload. -/
theorem c5_realloc_relocation_branch
    (s : MM) (fuel ptr size hw nhw : Nat)
    (hh : mget s.mem (HDRP ptr) = some hw)
    (h0 : size ≠ 0) (hp : ptr ≠ 0)
    (hlt : GET_SIZE hw < adjust size)
    (hnh : mget s.mem (HDRP (ptr + GET_SIZE hw)) = some nhw)
    (hnz : GET_SIZE nhw ≠ 0) :
    mm_realloc s fuel ptr size =
      (do
        let (newptr, s₁) ← mm_malloc s fuel size
        let m₁ ← memcpyWords s₁.mem newptr ptr (GET_SIZE hw / WSIZE)
        let s₂ ← mm_free { s₁ with mem := m₁ } ptr
        some (newptr, s₂)) := by
  have hh' : mget s.mem (ptr - WSIZE) = some hw := hh
  have hnh' : mget s.mem (HDRP (ptr + GET_SIZE hw)) = some nhw := hnh
  unfold mm_realloc
  rw [hh]
  simp only [Option.bind_eq_bind, Option.some_bind]
  rw [if_neg h0, if_neg hp, if_neg (by omega : ¬ adjust size ≤ GET_SIZE hw)]
  unfold NEXT_BLKP
  rw [hh']
  simp only [Option.bind_eq_bind, Option.some_bind]
  rw [hnh']
  simp only [Option.bind_eq_bind, Option.some_bind]
  rw [if_neg hnz]
  unfold realloc_relocate
  rfl

/-- Witness for `c5_realloc_relocation_branch`: the concrete relocation
`mm_realloc(128, 40)` on `S2` (old block size 32, new adjusted size 64,
next block allocated). -/
theorem c5_realloc_relocation_branch_witness :
    mget S2.mem (HDRP 128) = some 33 ∧
    (40 : Nat) ≠ 0 ∧ (128 : Nat) ≠ 0 ∧
    GET_SIZE 33 < adjust 40 ∧
    mget S2.mem (HDRP (128 + GET_SIZE 33)) = some 33 ∧
    GET_SIZE 33 ≠ 0 ∧
    mm_realloc S2 20 128 40 =
      (do
        let (newptr, s₁) ← mm_malloc S2 20 40
        let m₁ ← memcpyWords s₁.mem newptr 128 (GET_SIZE 33 / WSIZE)
        let s₂ ← mm_free { s₁ with mem := m₁ } 128
        some (newptr, s₂)) :=
  ⟨by decide, by decide, by decide, by decide, by decide, by decide,
    c5_realloc_relocation_branch S2 20 128 40 33 33 (by decide) (by decide)
      (by decide) (by decide) (by decide) (by decide)⟩

/-- C4 (amended): a successful `extend_heap(words)` only stamps the new
region: with `size = roundWords words` and `bp` the old break, it writes a
free header `(size, 0)` at `HDRP bp`, a free footer `(size, 0)` at
`bp + size - DSIZE`, and a fresh epilogue header `(0, 1)` at
`HDRP (bp + size)`; every other word of memory — in particular every
free-list head and every link word — is unchanged, no coalescing with a
free predecessor happens, and the returned payload is `bp` itself, the
new (un-merged) block.  Placement and free-list insertion are left to the
callers. -/
theorem c4_extend_heap_stamps_only
    (s : MM) (words : Nat)
    (hw : 0 < words)
    (hlo : s.mem.lo + WSIZE ≤ s.mem.brk)
    (hal : s.mem.brk % WSIZE = 0)
    (hfit : s.mem.brk + roundWords words ≤ s.mem.hi)
    (hhi : s.mem.hi < 2 ^ 64) :
    ∃ m' : Mem,
      extend_heap s words = some (s.mem.brk, { s with mem := m' }) ∧
      m'.lo = s.mem.lo ∧ m'.hi = s.mem.hi ∧
      m'.brk = s.mem.brk + roundWords words ∧
      m'.contents (HDRP s.mem.brk) = PACK (roundWords words) 0 ∧
      m'.contents (s.mem.brk + roundWords words - DSIZE) =
        PACK (roundWords words) 0 ∧
      m'.contents (HDRP (s.mem.brk + roundWords words)) = PACK 0 1 ∧
      (∀ q, q ≠ HDRP s.mem.brk →
            q ≠ s.mem.brk + roundWords words - DSIZE →
            q ≠ HDRP (s.mem.brk + roundWords words) →
            m'.contents q = s.mem.contents q) := by
  have h16 : roundWords words % 16 = 0 := roundWords_mod16 words
  have hge : 16 ≤ roundWords words := by
    unfold roundWords WSIZE
    rcases Nat.mod_two_eq_zero_or_one words with h | h <;> simp [h] <;> omega
  unfold WSIZE at hlo hal
  set sz := roundWords words with hszdef
  set bp := s.mem.brk with hbpdef
  have hszlt : sz < 2 ^ 64 := by omega
  have hP : PACK sz 0 % 2 ^ 64 = PACK sz 0 := by unfold PACK; omega
  have hP1 : PACK 0 1 % 2 ^ 64 = PACK 0 1 := by unfold PACK; omega
  have hGS : GET_SIZE (PACK sz 0) = sz := GET_SIZE_PACK sz 0 (by omega) (by omega)
  set m₀ : Mem := { s.mem with brk := bp + sz } with hm0
  have hsbrk : mem_sbrk s.mem sz = some (bp, m₀) := by
    unfold mem_sbrk
    rw [if_pos hfit]
  have hv1 : validAddr m₀ (bp - 8) := by
    refine ⟨by simp [hm0]; omega, by simp [hm0]; omega, by omega⟩
  set m₁ : Mem := m₀.write (bp - 8) (PACK sz 0) with hm1
  have hv2 : validAddr m₁ (bp + sz - 16) := by
    refine ⟨by simp [hm1, hm0]; omega, by simp [hm1, hm0]; omega, by omega⟩
  set m₂ : Mem := m₁.write (bp + sz - 16) (PACK sz 0) with hm2
  have hv3 : validAddr m₂ (bp + sz - 8) := by
    refine ⟨by simp [hm2, hm1, hm0]; omega, by simp [hm2, hm1, hm0]; omega, by omega⟩
  set m₃ : Mem := m₂.write (bp + sz - 8) (PACK 0 1) with hm3
  have hc1 : m₁.contents (bp - 8) = PACK sz 0 := by
    rw [hm1, Mem.contents_write_self, hP]
  have hc2 : m₂.contents (bp - 8) = PACK sz 0 := by
    rw [hm2, Mem.contents_write_ne _ _ _ _ (by omega), hc1]
  have hv1' : validAddr m₁ (bp - 8) := hv1
  have hv2' : validAddr m₂ (bp - 8) := hv1
  have hrun : extend_heap s words = some (bp, { s with mem := m₃ }) := by
    simp only [extend_heap]
    rw [← hszdef, hsbrk]
    simp only [Option.bind_eq_bind, Option.some_bind]
    rw [show HDRP bp = bp - 8 from rfl, mput_pos _ _ _ hv1, ← hm1]
    simp only [Option.some_bind]
    unfold FTRP
    rw [show HDRP bp = bp - 8 from rfl, mget_pos _ _ hv1', hc1]
    simp only [Option.bind_eq_bind, Option.some_bind]
    rw [hGS, show bp + sz - DSIZE = bp + sz - 16 from rfl,
      mput_pos _ _ _ hv2, ← hm2]
    simp only [Option.some_bind]
    unfold NEXT_BLKP
    rw [show bp - WSIZE = bp - 8 from rfl, mget_pos _ _ hv2', hc2]
    simp only [Option.bind_eq_bind, Option.some_bind]
    rw [hGS, show HDRP (bp + sz) = bp + sz - 8 from rfl, mput_pos _ _ _ hv3, ← hm3]
    simp only [Option.some_bind]
  refine ⟨m₃, hrun, by simp [hm3, hm2, hm1, hm0], by simp [hm3, hm2, hm1, hm0],
    by simp [hm3, hm2, hm1, hm0], ?_, ?_, ?_, ?_⟩
  · show m₃.contents (bp - 8) = PACK sz 0
    rw [hm3, Mem.contents_write_ne _ _ _ _ (by omega),
      hm2, Mem.contents_write_ne _ _ _ _ (by omega), hc1]
  · show m₃.contents (bp + sz - 16) = PACK sz 0
    rw [hm3, Mem.contents_write_ne _ _ _ _ (by omega), hm2,
      Mem.contents_write_self, hP]
  · show m₃.contents (bp + sz - 8) = PACK 0 1
    rw [hm3, Mem.contents_write_self, hP1]
  · intro q hq1 hq2 hq3
    have hq1' : q ≠ bp - 8 := hq1
    have hq2' : q ≠ bp + sz - 16 := hq2
    have hq3' : q ≠ bp + sz - 8 := hq3
    rw [hm3, Mem.contents_write_ne _ _ _ _ hq3', hm2,
      Mem.contents_write_ne _ _ _ _ hq2', hm1,
      Mem.contents_write_ne _ _ _ _ hq1', hm0]

/-- Witness for `c4_extend_heap_stamps_only`: the concrete extension of
`S2f` by 4 words used in the counterexample. -/
theorem c4_extend_heap_stamps_only_witness :
    0 < 4 ∧ S2f.mem.lo + WSIZE ≤ S2f.mem.brk ∧ S2f.mem.brk % WSIZE = 0 ∧
    S2f.mem.brk + roundWords 4 ≤ S2f.mem.hi ∧ S2f.mem.hi < 2 ^ 64 ∧
    ∃ m' : Mem,
      extend_heap S2f 4 = some (S2f.mem.brk, { S2f with mem := m' }) ∧
      m'.lo = S2f.mem.lo ∧ m'.hi = S2f.mem.hi ∧
      m'.brk = S2f.mem.brk + roundWords 4 ∧
      m'.contents (HDRP S2f.mem.brk) = PACK (roundWords 4) 0 ∧
      m'.contents (S2f.mem.brk + roundWords 4 - DSIZE) = PACK (roundWords 4) 0 ∧
      m'.contents (HDRP (S2f.mem.brk + roundWords 4)) = PACK 0 1 ∧
      (∀ q, q ≠ HDRP S2f.mem.brk →
            q ≠ S2f.mem.brk + roundWords 4 - DSIZE →
            q ≠ HDRP (S2f.mem.brk + roundWords 4) →
            m'.contents q = S2f.mem.contents q) :=
  ⟨by decide, by decide, by decide, by decide, by decide,
    c4_extend_heap_stamps_only S2f 4 (by decide) (by decide) (by decide)
      (by decide) (by decide)⟩

/-- A free list as laid out in memory: `p` points to the successive nodes
of `l`; each node is non-null, its header word and its `next` link word are
readable, and the `next` link of each node points to the rest.  (`repList`
is what `find_fit`'s traversal needs; link-backedness of `prev` is not
required here.) -/
def repList (m : Mem) : Nat → List Nat → Prop
  | p, [] => p = 0
  | p, x :: xs => p = x ∧ x ≠ 0 ∧ validAddr m (x - 8) ∧ validAddr m (x + 8) ∧
      repList m (m.contents (x + 8)) xs

instance instDecidableRepList (m : Mem) :
    ∀ (l : List Nat) (p : Nat), Decidable (repList m p l)
  | [], p => by unfold repList; infer_instance
  | x :: xs, p => by
      unfold repList
      have := instDecidableRepList m xs (m.contents (x + 8))
      infer_instance

theorem repList_ne_zero (m : Mem) :
    ∀ (l : List Nat) (p : Nat), repList m p l → ∀ x ∈ l, x ≠ 0 := by
  intro l
  induction l with
  | nil => intro p _ x hx; cases hx
  | cons y ys ih =>
    intro p hrep x hx
    obtain ⟨hp, hy0, hv1, hv2, hrest⟩ := hrep
    rcases List.mem_cons.mp hx with h | h
    · exact h ▸ hy0
    · exact ih _ hrest x h

/-- `scanList` on a represented list returns the first node whose recorded
size is at least `asize`, and `0` when there is none. -/
theorem scanList_spec (m : Mem) (asize : Nat) :
    ∀ (l : List Nat) (p fuel : Nat), repList m p l → l.length < fuel →
      scanList m fuel p asize =
        some ((l.find? fun x =>
          decide (asize ≤ GET_SIZE (m.contents (x - 8)))).getD 0) := by
  intro l
  induction l with
  | nil =>
    intro p fuel hrep hlen
    cases fuel with
    | zero => omega
    | succ f =>
      have hp : p = 0 := hrep
      simp [scanList, hp, List.find?]
  | cons x xs ih =>
    intro p fuel hrep hlen
    obtain ⟨hp, hx0, hv1, hv2, hrest⟩ := hrep
    cases fuel with
    | zero => omega
    | succ f =>
      rw [hp]
      simp only [scanList, HDRP, WSIZE]
      rw [if_neg hx0, mget_pos _ _ hv1]
      simp only [Option.bind_eq_bind, Option.some_bind]
      rw [List.find?_cons]
      by_cases hfit : asize ≤ GET_SIZE (m.contents (x - 8))
      · rw [if_pos hfit]
        simp [hfit]
      · rw [if_neg hfit, mget_pos _ _ hv2]
        simp only [Option.some_bind]
        rw [ih _ f hrest (by simpa using hlen)]
        simp [hfit]

/-- `find_fitAux` on represented lists computes the first fit of the
concatenation of the lists of classes `idx, …, 7`, in that order. -/
theorem find_fitAux_spec (s : MM) (asize fuel : Nat) (ls : Nat → List Nat) :
    ∀ (rem idx : Nat), idx + rem = 8 →
      (∀ i, idx ≤ i → i < 8 → validAddr s.mem (s.free_listp + WSIZE * i)) →
      (∀ i, idx ≤ i → i < 8 →
        repList s.mem (s.mem.contents (s.free_listp + WSIZE * i)) (ls i)) →
      (∀ i, idx ≤ i → i < 8 → (ls i).length < fuel) →
      find_fitAux s fuel asize idx rem =
        some (((List.map ls (List.drop idx (List.range 8))).flatten.find? fun x =>
          decide (asize ≤ GET_SIZE (s.mem.contents (x - 8)))).getD 0) := by
  intro rem
  induction rem with
  | zero =>
    intro idx hsum _ _ _
    have : idx = 8 := by omega
    subst this
    simp [find_fitAux, List.drop_eq_nil_of_le, List.find?]
  | succ r ih =>
    intro idx hsum hval hrep hlen
    have hidx : idx < 8 := by omega
    have hdrop : List.drop idx (List.range 8) =
        idx :: List.drop (idx + 1) (List.range 8) := by
      rw [List.drop_eq_getElem_cons (by simpa using hidx), List.getElem_range]
    simp only [find_fitAux]
    rw [if_neg (by omega : ¬ 8 ≤ idx),
      mget_pos _ _ (hval idx le_rfl hidx)]
    simp only [Option.bind_eq_bind, Option.some_bind]
    rw [scanList_spec s.mem asize (ls idx) _ fuel (hrep idx le_rfl hidx)
      (hlen idx le_rfl hidx)]
    simp only [Option.some_bind]
    rw [hdrop]
    simp only [List.map_cons, List.flatten_cons]
    rw [List.find?_append]
    rcases hfind : (ls idx).find? (fun x =>
        decide (asize ≤ GET_SIZE (s.mem.contents (x - 8)))) with _ | x
    · rw [if_neg (by simp)]
      rw [ih (idx + 1) (by omega) (fun i h1 h2 => hval i (by omega) h2)
        (fun i h1 h2 => hrep i (by omega) h2)
        (fun i h1 h2 => hlen i (by omega) h2)]
      simp
    · have hx0 : x ≠ 0 :=
        repList_ne_zero s.mem (ls idx) _ (hrep idx le_rfl hidx) x
          (List.mem_of_find?_eq_some hfind)
      rw [if_pos (by simpa using hx0)]
      simp

/-- C7: for every `asize`, on a heap whose size-class lists from class
`find_list asize` upward are represented in memory by `ls`, `find_fit`
starts at class `find_list asize`, scans each class's list in list order,
returns the first block of the concatenation whose recorded size is at
least `asize`, moving to successively higher classes as lists are
exhausted, and returns `0` (C: `NULL`) exactly when no block of any class
from `find_list asize` through 7 fits (`List.find?` returns `none`). -/
theorem c7_find_fit_first_fit
    (s : MM) (asize fuel : Nat) (ls : Nat → List Nat)
    (hval : ∀ i, find_list asize ≤ i → i < 8 →
      validAddr s.mem (s.free_listp + WSIZE * i))
    (hrep : ∀ i, find_list asize ≤ i → i < 8 →
      repList s.mem (s.mem.contents (s.free_listp + WSIZE * i)) (ls i))
    (hlen : ∀ i, find_list asize ≤ i → i < 8 → (ls i).length < fuel) :
    find_fit s fuel asize =
      some (((List.map ls (List.drop (find_list asize)
          (List.range 8))).flatten.find? fun x =>
        decide (asize ≤ GET_SIZE (s.mem.contents (x - 8)))).getD 0) := by
  have hle : find_list asize ≤ 8 := by
    unfold find_list
    repeat' split
    all_goals omega
  unfold find_fit
  exact find_fitAux_spec s asize fuel ls (8 - find_list asize) (find_list asize)
    (by omega) hval hrep hlen

/-- Witness for `c7_find_fit_first_fit`: the concrete state `S2f`, whose
class-0 list is `[128]` and whose other classes are empty; the search for
`asize = 32` finds the block `128`. -/
theorem c7_find_fit_first_fit_witness :
    (∀ i, find_list 32 ≤ i → i < 8 →
      validAddr S2f.mem (S2f.free_listp + WSIZE * i)) ∧
    (∀ i, find_list 32 ≤ i → i < 8 →
      repList S2f.mem (S2f.mem.contents (S2f.free_listp + WSIZE * i))
        (if i = 0 then [128] else [])) ∧
    (∀ i, find_list 32 ≤ i → i < 8 →
      (if i = 0 then [128] else ([] : List Nat)).length < 20) ∧
    find_fit S2f 20 32 =
      some (((List.map (fun i => if i = 0 then [128] else [])
          (List.drop (find_list 32) (List.range 8))).flatten.find? fun x =>
        decide (32 ≤ GET_SIZE (S2f.mem.contents (x - 8)))).getD 0) := by
  refine ⟨?_, ?_, ?_, ?_⟩
  · intro i h1 h2
    interval_cases i <;> decide
  · intro i h1 h2
    interval_cases i <;> decide
  · intro i h1 h2
    interval_cases i <;> decide
  · exact c7_find_fit_first_fit S2f 32 20 (fun i => if i = 0 then [128] else [])
      (by intro i h1 h2; interval_cases i <;> decide)
      (by intro i h1 h2; interval_cases i <;> decide)
      (by intro i h1 h2; interval_cases i <;> decide)

theorem mget_eq_some (m : Mem) (p v : Nat) (h : mget m p = some v) :
    validAddr m p ∧ m.contents p = v := by
  by_cases hv : validAddr m p
  · refine ⟨hv, ?_⟩
    rw [mget_pos m p hv] at h
    exact (Option.some.injEq _ _).mp h
  · rw [mget, if_neg hv] at h
    cases h

/-- C10: the head-prev-null invariant.  First conjunct: `insert_free`
establishes it — after inserting `bp` into class `find_list asize`, the
class head is `bp` and `bp`'s `prev` link word is `0`.  Second conjunct:
`remove_free` preserves it — on a block whose links are `prev`/`nxt`, with
the pre-state satisfying the invariant for the block's class and the link
words non-aliased as in any well-formed heap, the post-state class head,
when non-null, has a null `prev` link.  (`remove_free` indeed decides
headship by `prev == NULL`: its first branch is taken exactly when the
read `prev` link is `0`.) -/
theorem c10_head_prev_null :
    (∀ (s : MM) (asize bp head : Nat),
      mget s.mem (s.free_listp + WSIZE * find_list asize) = some head →
      validAddr s.mem bp →
      validAddr s.mem (bp + 8) →
      (head ≠ 0 → validAddr s.mem head) →
      bp < 2 ^ 64 →
      s.free_listp + WSIZE * find_list asize ≠ bp →
      s.free_listp + WSIZE * find_list asize ≠ bp + 8 →
      head ≠ bp →
      ∃ s', insert_free s asize bp = some s' ∧
        s'.mem.contents (s.free_listp + WSIZE * find_list asize) = bp ∧
        s'.mem.contents bp = 0) ∧
    (∀ (s : MM) (bp hw prev nxt : Nat),
      mget s.mem (HDRP bp) = some hw →
      mget s.mem bp = some prev →
      mget s.mem (bp + 8) = some nxt →
      validAddr s.mem (s.free_listp + WSIZE * find_list (GET_SIZE hw)) →
      (prev ≠ 0 → validAddr s.mem (prev + 8)) →
      (nxt ≠ 0 → validAddr s.mem nxt) →
      nxt < 2 ^ 64 →
      (s.mem.contents (s.free_listp + WSIZE * find_list (GET_SIZE hw)) ≠ 0 →
        s.mem.contents
          (s.mem.contents (s.free_listp + WSIZE * find_list (GET_SIZE hw))) = 0) →
      s.free_listp + WSIZE * find_list (GET_SIZE hw) ≠ prev + 8 →
      s.free_listp + WSIZE * find_list (GET_SIZE hw) ≠ nxt →
      s.mem.contents (s.free_listp + WSIZE * find_list (GET_SIZE hw)) ≠ prev + 8 →
      (prev ≠ 0 →
        s.mem.contents (s.free_listp + WSIZE * find_list (GET_SIZE hw)) ≠ nxt) →
      ∃ s', remove_free s bp = some s' ∧
        (s'.mem.contents (s.free_listp + WSIZE * find_list (GET_SIZE hw)) ≠ 0 →
          s'.mem.contents
            (s'.mem.contents
              (s.free_listp + WSIZE * find_list (GET_SIZE hw))) = 0)) := by
  constructor
  · intro s asize bp head hhead hvbp hvbp8 hvhead hlt hne1 hne2 hne3
    obtain ⟨hvslot, hslot⟩ := mget_eq_some _ _ _ hhead
    have hvbp8' : validAddr s.mem (bp + WSIZE) := hvbp8
    have hne2' : s.free_listp + WSIZE * find_list asize ≠ bp + WSIZE := hne2
    simp only [insert_free]
    set L := s.free_listp + WSIZE * find_list asize with hL
    rw [hhead]
    simp only [Option.bind_eq_bind, Option.some_bind]
    by_cases h0 : head = 0
    · rw [if_pos h0, mput_pos _ _ _ hvslot]
      simp only [Option.some_bind]
      rw [mput_pos (s.mem.write L bp) _ _ hvbp8']
      simp only [Option.some_bind]
      rw [mput_pos ((s.mem.write L bp).write (bp + WSIZE) 0) _ _ hvbp]
      simp only [Option.some_bind]
      refine ⟨_, rfl, ?_, ?_⟩
      · rw [Mem.contents_write_ne _ _ _ _ hne1, Mem.contents_write_ne _ _ _ _ hne2',
          Mem.contents_write_self]
        omega
      · rw [Mem.contents_write_self]
        omega
    · rw [if_neg h0, mput_pos _ _ _ hvbp8']
      simp only [Option.some_bind]
      rw [mput_pos (s.mem.write (bp + WSIZE) head) _ _ hvbp]
      simp only [Option.some_bind]
      rw [mput_pos ((s.mem.write (bp + WSIZE) head).write bp 0) _ _ (hvhead h0)]
      simp only [Option.some_bind]
      rw [mput_pos (((s.mem.write (bp + WSIZE) head).write bp 0).write head bp) _ _
        hvslot]
      simp only [Option.some_bind]
      refine ⟨_, rfl, ?_, ?_⟩
      · rw [Mem.contents_write_self]
        omega
      · rw [Mem.contents_write_ne _ _ _ _ (Ne.symm hne1),
          Mem.contents_write_ne _ _ _ _ (Ne.symm hne3),
          Mem.contents_write_self]
        omega
  · intro s bp hw prev nxt hh hprev hnext hvslot hvprev8 hvnxt hlt hinv hne1 hne2 hne3 hne4
    have hnext' : mget s.mem (bp + WSIZE) = some nxt := hnext
    have hvprev8' : prev ≠ 0 → validAddr s.mem (prev + WSIZE) := hvprev8
    have hne1' : s.free_listp + WSIZE * find_list (GET_SIZE hw) ≠ prev + WSIZE := hne1
    have hne3' :
        s.mem.contents (s.free_listp + WSIZE * find_list (GET_SIZE hw)) ≠ prev + WSIZE :=
      hne3
    unfold remove_free
    rw [hh]
    simp only [Option.bind_eq_bind, Option.some_bind]
    set L := s.free_listp + WSIZE * find_list (GET_SIZE hw) with hL
    rw [hprev]
    simp only [Option.some_bind]
    by_cases hp0 : prev = 0
    · rw [if_pos hp0, hnext']
      simp only [Option.some_bind]
      by_cases hn0 : nxt = 0
      · rw [if_neg (show ¬ nxt ≠ 0 from fun h => h hn0), mput_pos _ _ _ hvslot]
        simp only [Option.some_bind]
        refine ⟨_, rfl, ?_⟩
        intro habs
        rw [Mem.contents_write_self] at habs
        omega
      · rw [if_pos hn0, mput_pos _ _ _ (hvnxt hn0)]
        simp only [Option.some_bind]
        rw [mput_pos (s.mem.write nxt 0) _ _ hvslot]
        simp only [Option.some_bind]
        refine ⟨_, rfl, ?_⟩
        intro _
        rw [Mem.contents_write_self, Nat.mod_eq_of_lt hlt,
          Mem.contents_write_ne _ _ _ _ (Ne.symm hne2),
          Mem.contents_write_self]
        omega
    · rw [if_neg hp0, hnext']
      simp only [Option.some_bind]
      by_cases hn0 : nxt = 0
      · rw [if_pos hn0, mput_pos _ _ _ (hvprev8' hp0)]
        simp only [Option.some_bind]
        refine ⟨_, rfl, ?_⟩
        intro hnz
        rw [Mem.contents_write_ne _ _ _ _ hne1'] at hnz ⊢
        rw [Mem.contents_write_ne _ _ _ _ hne3']
        exact hinv hnz
      · rw [if_neg hn0, mput_pos _ _ _ (hvprev8' hp0)]
        simp only [Option.some_bind]
        rw [mput_pos (s.mem.write (prev + WSIZE) nxt) _ _ (hvnxt hn0)]
        simp only [Option.some_bind]
        refine ⟨_, rfl, ?_⟩
        intro hnz
        rw [Mem.contents_write_ne _ _ _ _ hne2,
          Mem.contents_write_ne _ _ _ _ hne1'] at hnz ⊢
        rw [Mem.contents_write_ne _ _ _ _ (hne4 hp0),
          Mem.contents_write_ne _ _ _ _ hne3']
        exact hinv hnz

/-- Witness for `c10_head_prev_null`: the insert conjunct at the insertion
of the freed block 128 into the empty class-0 list of `S1`, and the remove
conjunct at the removal of block 128 (head of class 0, sole element) from
`S2f`. -/
theorem c10_head_prev_null_witness :
    (∃ s', insert_free S1 32 128 = some s' ∧
      s'.mem.contents (S1.free_listp + WSIZE * find_list 32) = 128 ∧
      s'.mem.contents 128 = 0) ∧
    (∃ s', remove_free S2f 128 = some s' ∧
      (s'.mem.contents (S2f.free_listp + WSIZE * find_list (GET_SIZE 32)) ≠ 0 →
        s'.mem.contents
          (s'.mem.contents
            (S2f.free_listp + WSIZE * find_list (GET_SIZE 32))) = 0)) :=
  ⟨c10_head_prev_null.1 S1 32 128 0 (by decide) (by decide) (by decide)
      (by decide) (by decide) (by decide) (by decide) (by decide),
    c10_head_prev_null.2 S2f 128 32 0 0 (by decide) (by decide) (by decide)
      (by decide) (by decide) (by decide) (by decide) (by decide) (by decide)
      (by decide) (by decide) (by decide)⟩

theorem mput_neg (m : Mem) (p v : Nat) (h : ¬ validAddr m p) :
    mput m p v = none := by simp [mput, h]

set_option maxHeartbeats 2000000 in
/-- C6: `coalesce` follows the four-case boundary-tag table.  Reading the
block's header `hw`, the previous block's footer `pfw` and header `phw`,
and the next block's header `nhw`, the dispatch is on the alloc bits of
`phw` and `nhw`:
* both allocated — insert the block into the list of its size class and
  return it;
* only next free — unlink the next block (`remove_free`, whose result is
  the hypothesised `s₁`), write `PACK (size + next_size) 0` as the header
  at the block and as the footer at the merged tail, insert the merged
  block, return the block;
* only previous free — unlink the previous block, write the merged free
  word as the footer at the block's old tail position and as the header at
  the previous block, insert, return the previous block's payload;
* both free — unlink both neighbors, write the merged free word as the
  header at the previous block and as the footer at the next block's old
  tail, insert, return the previous block's payload.
In every merge case the words written at the resulting header and footer
positions are `PACK (sum of merged sizes) 0`: size field the sum, alloc
bit 0.  The frame hypotheses (`mget s₁ … = some …`) state that unlinking
only touches link words, never the boundary tags, as in any well-formed
heap; the bound hypotheses mirror real block geometry. -/
theorem c6_coalesce_four_cases :
    (∀ (s : MM) (bp hw pfw phw nhw : Nat),
      mget s.mem (HDRP bp) = some hw →
      mget s.mem (bp - DSIZE) = some pfw →
      mget s.mem (HDRP (bp - GET_SIZE pfw)) = some phw →
      mget s.mem (HDRP (bp + GET_SIZE hw)) = some nhw →
      GET_ALLOC phw ≠ 0 → GET_ALLOC nhw ≠ 0 →
      coalesce s bp = (do
        let s' ← insert_free s (GET_SIZE hw) bp
        some (bp, s'))) ∧
    (∀ (s s₁ : MM) (bp hw pfw phw nhw : Nat),
      mget s.mem (HDRP bp) = some hw →
      mget s.mem (bp - DSIZE) = some pfw →
      mget s.mem (HDRP (bp - GET_SIZE pfw)) = some phw →
      mget s.mem (HDRP (bp + GET_SIZE hw)) = some nhw →
      GET_ALLOC phw ≠ 0 → GET_ALLOC nhw = 0 →
      remove_free s (bp + GET_SIZE hw) = some s₁ →
      mget s₁.mem (HDRP bp) = some hw →
      mget s₁.mem (HDRP (bp + GET_SIZE hw)) = some nhw →
      GET_SIZE hw + GET_SIZE nhw < 2 ^ 64 →
      coalesce s bp = (do
        let m₁ ← mput s₁.mem (HDRP bp) (PACK (GET_SIZE hw + GET_SIZE nhw) 0)
        let m₂ ← mput m₁ (bp + (GET_SIZE hw + GET_SIZE nhw) - DSIZE)
            (PACK (GET_SIZE hw + GET_SIZE nhw) 0)
        let s₂ ← insert_free { s₁ with mem := m₂ }
            (GET_SIZE hw + GET_SIZE nhw) bp
        some (bp, s₂))) ∧
    (∀ (s s₁ : MM) (bp hw pfw phw nhw : Nat),
      mget s.mem (HDRP bp) = some hw →
      mget s.mem (bp - DSIZE) = some pfw →
      mget s.mem (HDRP (bp - GET_SIZE pfw)) = some phw →
      mget s.mem (HDRP (bp + GET_SIZE hw)) = some nhw →
      GET_ALLOC phw = 0 → GET_ALLOC nhw ≠ 0 →
      remove_free s (bp - GET_SIZE pfw) = some s₁ →
      mget s₁.mem (bp - DSIZE) = some pfw →
      mget s₁.mem (HDRP (bp - GET_SIZE pfw)) = some phw →
      mget s₁.mem (HDRP bp) = some hw →
      16 ≤ GET_SIZE hw → 16 ≤ GET_SIZE pfw → GET_SIZE pfw + DSIZE ≤ bp →
      coalesce s bp = (do
        let m₁ ← mput s₁.mem (bp + GET_SIZE hw - DSIZE)
            (PACK (GET_SIZE hw + GET_SIZE phw) 0)
        let m₂ ← mput m₁ (HDRP (bp - GET_SIZE pfw))
            (PACK (GET_SIZE hw + GET_SIZE phw) 0)
        let s₂ ← insert_free { s₁ with mem := m₂ }
            (GET_SIZE hw + GET_SIZE phw) (bp - GET_SIZE pfw)
        some (bp - GET_SIZE pfw, s₂))) ∧
    (∀ (s s₁ s₂ : MM) (bp hw pfw phw nhw nfw : Nat),
      mget s.mem (HDRP bp) = some hw →
      mget s.mem (bp - DSIZE) = some pfw →
      mget s.mem (HDRP (bp - GET_SIZE pfw)) = some phw →
      mget s.mem (HDRP (bp + GET_SIZE hw)) = some nhw →
      GET_ALLOC phw = 0 → GET_ALLOC nhw = 0 →
      remove_free s (bp + GET_SIZE hw) = some s₁ →
      mget s₁.mem (bp - DSIZE) = some pfw →
      remove_free s₁ (bp - GET_SIZE pfw) = some s₂ →
      mget s₂.mem (bp - DSIZE) = some pfw →
      mget s₂.mem (HDRP (bp - GET_SIZE pfw)) = some phw →
      mget s₂.mem (HDRP bp) = some hw →
      mget s₂.mem (HDRP (bp + GET_SIZE hw)) = some nhw →
      mget s₂.mem (bp + GET_SIZE hw + GET_SIZE nhw - DSIZE) = some nfw →
      GET_SIZE nfw = GET_SIZE nhw →
      16 ≤ GET_SIZE hw → 16 ≤ GET_SIZE pfw → GET_SIZE pfw + DSIZE ≤ bp →
      coalesce s bp = (do
        let m₁ ← mput s₂.mem (HDRP (bp - GET_SIZE pfw))
            (PACK (GET_SIZE hw + GET_SIZE phw + GET_SIZE nhw) 0)
        let m₂ ← mput m₁ (bp + GET_SIZE hw + GET_SIZE nhw - DSIZE)
            (PACK (GET_SIZE hw + GET_SIZE phw + GET_SIZE nhw) 0)
        let s₃ ← insert_free { s₂ with mem := m₂ }
            (GET_SIZE hw + GET_SIZE phw + GET_SIZE nhw) (bp - GET_SIZE pfw)
        some (bp - GET_SIZE pfw, s₃))) := by
  refine ⟨?_, ?_, ?_, ?_⟩
  · intro s bp hw pfw phw nhw hh hpf hph hnh hpa hna
    have hh' : mget s.mem (bp - WSIZE) = some hw := hh
    unfold coalesce PREV_BLKP NEXT_BLKP
    rw [hh]
    simp only [Option.bind_eq_bind, Option.some_bind]
    rw [hpf]
    simp only [Option.some_bind]
    rw [hph]
    simp only [Option.some_bind]
    rw [hh']
    simp only [Option.some_bind]
    rw [hnh]
    simp only [Option.some_bind]
    rw [if_pos ⟨hpa, hna⟩]
    rfl
  · intro s s₁ bp hw pfw phw nhw hh hpf hph hnh hpa hna hrm f1 f2 hsz
    have hh' : mget s.mem (bp - WSIZE) = some hw := hh
    have f1' : mget s₁.mem (bp - WSIZE) = some hw := f1
    have h16 : (GET_SIZE hw + GET_SIZE nhw) % 16 = 0 := by
      have := GET_SIZE_mod16 hw
      have := GET_SIZE_mod16 nhw
      omega
    unfold coalesce PREV_BLKP NEXT_BLKP
    rw [hh]
    simp only [Option.bind_eq_bind, Option.some_bind]
    rw [hpf]
    simp only [Option.some_bind]
    rw [hph]
    simp only [Option.some_bind]
    rw [hh']
    simp only [Option.some_bind]
    rw [hnh]
    simp only [Option.some_bind]
    rw [if_neg (fun h => h.2 hna), if_pos ⟨hpa, hna⟩]
    unfold coalesce_case2 NEXT_BLKP FTRP
    rw [hh']
    simp only [Option.bind_eq_bind, Option.some_bind]
    rw [hrm]
    simp only [Option.some_bind]
    rw [f1']
    simp only [Option.some_bind]
    rw [f2]
    simp only [Option.some_bind]
    by_cases hv : validAddr s₁.mem (HDRP bp)
    · rw [mput_pos _ _ _ hv]
      simp only [Option.some_bind]
      rw [mget_pos (s₁.mem.write (HDRP bp) (PACK (GET_SIZE hw + GET_SIZE nhw) 0))
        (HDRP bp) hv]
      simp only [Option.some_bind, Mem.contents_write_self]
      rw [Nat.mod_eq_of_lt (show PACK (GET_SIZE hw + GET_SIZE nhw) 0 < 2 ^ 64 by
          unfold PACK
          omega),
        GET_SIZE_PACK _ _ h16 (by omega)]
    · rw [mput_neg _ _ _ hv]
      simp only [Option.none_bind]
  · intro s s₁ bp hw pfw phw nhw hh hpf hph hnh hpa hna hrm f1 f2 f3 hw16 hpf16 hbp
    have hh' : mget s.mem (bp - WSIZE) = some hw := hh
    have hbp' : GET_SIZE pfw + 16 ≤ bp := hbp
    have hD : (DSIZE : Nat) = 16 := rfl
    have hHp : HDRP (bp - GET_SIZE pfw) = bp - GET_SIZE pfw - 8 := rfl
    unfold coalesce PREV_BLKP NEXT_BLKP
    rw [hh]
    simp only [Option.bind_eq_bind, Option.some_bind]
    rw [hpf]
    simp only [Option.some_bind]
    rw [hph]
    simp only [Option.some_bind]
    rw [hh']
    simp only [Option.some_bind]
    rw [hnh]
    simp only [Option.some_bind]
    rw [if_neg (fun h => h.1 hpa), if_neg (fun h => h.1 hpa),
      if_pos ⟨hpa, hna⟩]
    unfold coalesce_case3 PREV_BLKP FTRP
    rw [hpf]
    simp only [Option.bind_eq_bind, Option.some_bind]
    rw [hrm]
    simp only [Option.some_bind]
    rw [f1]
    simp only [Option.some_bind]
    rw [f2]
    simp only [Option.some_bind]
    rw [f3]
    simp only [Option.some_bind]
    by_cases hv : validAddr s₁.mem (bp + GET_SIZE hw - DSIZE)
    · rw [mput_pos _ _ _ hv]
      simp only [Option.some_bind]
      have hvr : validAddr s₁.mem (bp - DSIZE) := (mget_eq_some _ _ _ f1).1
      rw [mget_pos
        (s₁.mem.write (bp + GET_SIZE hw - DSIZE) (PACK (GET_SIZE hw + GET_SIZE phw) 0))
        (bp - DSIZE) hvr]
      simp only [Option.some_bind]
      rw [Mem.contents_write_ne _ _ _ _ (show bp - DSIZE ≠ bp + GET_SIZE hw - DSIZE by
          omega),
        (mget_eq_some _ _ _ f1).2]
      by_cases hv2 : validAddr s₁.mem (HDRP (bp - GET_SIZE pfw))
      · rw [mput_pos
          (s₁.mem.write (bp + GET_SIZE hw - DSIZE) (PACK (GET_SIZE hw + GET_SIZE phw) 0))
          _ _ hv2]
        simp only [Option.some_bind]
        rw [mget_pos
          ((s₁.mem.write (bp + GET_SIZE hw - DSIZE)
              (PACK (GET_SIZE hw + GET_SIZE phw) 0)).write
            (HDRP (bp - GET_SIZE pfw)) (PACK (GET_SIZE hw + GET_SIZE phw) 0))
          (bp - DSIZE) hvr]
        simp only [Option.some_bind]
        rw [Mem.contents_write_ne _ _ _ _ (show bp - DSIZE ≠ HDRP (bp - GET_SIZE pfw) by
            omega),
          Mem.contents_write_ne _ _ _ _ (show bp - DSIZE ≠ bp + GET_SIZE hw - DSIZE by
            omega),
          (mget_eq_some _ _ _ f1).2]
      · rw [mput_neg
          (s₁.mem.write (bp + GET_SIZE hw - DSIZE) (PACK (GET_SIZE hw + GET_SIZE phw) 0))
          _ _ hv2]
        simp only [Option.none_bind]
    · rw [mput_neg _ _ _ hv]
      simp only [Option.none_bind]
  · intro s s₁ s₂ bp hw pfw phw nhw nfw hh hpf hph hnh hpa hna hrm1 f1 hrm2 f2 f3 f4
      f5 f6 hff hw16 hpf16 hbp
    have hh' : mget s.mem (bp - WSIZE) = some hw := hh
    have f4' : mget s₂.mem (bp - WSIZE) = some hw := f4
    have hbp' : GET_SIZE pfw + 16 ≤ bp := hbp
    have hD : (DSIZE : Nat) = 16 := rfl
    have hW : (WSIZE : Nat) = 8 := rfl
    have hHp : HDRP (bp - GET_SIZE pfw) = bp - GET_SIZE pfw - 8 := rfl
    have hHn : HDRP (bp + GET_SIZE hw) = bp + GET_SIZE hw - 8 := rfl
    unfold coalesce PREV_BLKP NEXT_BLKP
    rw [hh]
    simp only [Option.bind_eq_bind, Option.some_bind]
    rw [hpf]
    simp only [Option.some_bind]
    rw [hph]
    simp only [Option.some_bind]
    rw [hh']
    simp only [Option.some_bind]
    rw [hnh]
    simp only [Option.some_bind]
    rw [if_neg (fun h => h.1 hpa), if_neg (fun h => h.1 hpa),
      if_neg (fun h => h.2 hna)]
    unfold coalesce_case4 coalesce_case4_tags PREV_BLKP NEXT_BLKP FTRP
    rw [hh']
    simp only [Option.bind_eq_bind, Option.some_bind]
    rw [hrm1]
    simp only [Option.some_bind]
    rw [f1]
    simp only [Option.some_bind]
    rw [hrm2]
    simp only [Option.some_bind]
    rw [f2]
    simp only [Option.some_bind]
    rw [f3]
    simp only [Option.some_bind]
    rw [f4']
    simp only [Option.some_bind]
    rw [f5]
    simp only [Option.some_bind]
    rw [f6]
    simp only [Option.some_bind]
    rw [hff]
    by_cases hv : validAddr s₂.mem (HDRP (bp - GET_SIZE pfw))
    · rw [mput_pos _ _ _ hv]
      simp only [Option.some_bind]
      have hvh : validAddr s₂.mem (bp - WSIZE) := (mget_eq_some _ _ _ f4').1
      rw [mget_pos
        (s₂.mem.write (HDRP (bp - GET_SIZE pfw))
          (PACK (GET_SIZE hw + GET_SIZE phw + GET_SIZE nhw) 0))
        (bp - WSIZE) hvh]
      simp only [Option.some_bind]
      rw [Mem.contents_write_ne _ _ _ _ (show bp - WSIZE ≠ HDRP (bp - GET_SIZE pfw) by
          omega),
        (mget_eq_some _ _ _ f4').2]
      have hvn : validAddr s₂.mem (HDRP (bp + GET_SIZE hw)) := (mget_eq_some _ _ _ f5).1
      rw [mget_pos
        (s₂.mem.write (HDRP (bp - GET_SIZE pfw))
          (PACK (GET_SIZE hw + GET_SIZE phw + GET_SIZE nhw) 0))
        (HDRP (bp + GET_SIZE hw)) hvn]
      simp only [Option.some_bind]
      rw [Mem.contents_write_ne _ _ _ _
          (show HDRP (bp + GET_SIZE hw) ≠ HDRP (bp - GET_SIZE pfw) by
            omega),
        (mget_eq_some _ _ _ f5).2]
      by_cases hv2 : validAddr s₂.mem (bp + GET_SIZE hw + GET_SIZE nhw - DSIZE)
      · rw [mput_pos
          (s₂.mem.write (HDRP (bp - GET_SIZE pfw))
            (PACK (GET_SIZE hw + GET_SIZE phw + GET_SIZE nhw) 0))
          _ _ hv2]
        simp only [Option.some_bind]
        have hvr : validAddr s₂.mem (bp - DSIZE) := (mget_eq_some _ _ _ f2).1
        rw [mget_pos
          ((s₂.mem.write (HDRP (bp - GET_SIZE pfw))
              (PACK (GET_SIZE hw + GET_SIZE phw + GET_SIZE nhw) 0)).write
            (bp + GET_SIZE hw + GET_SIZE nhw - DSIZE)
            (PACK (GET_SIZE hw + GET_SIZE phw + GET_SIZE nhw) 0))
          (bp - DSIZE) hvr]
        simp only [Option.some_bind]
        rw [Mem.contents_write_ne _ _ _ _
            (show bp - DSIZE ≠ bp + GET_SIZE hw + GET_SIZE nhw - DSIZE by
              omega),
          Mem.contents_write_ne _ _ _ _
            (show bp - DSIZE ≠ HDRP (bp - GET_SIZE pfw) by
              omega),
          (mget_eq_some _ _ _ f2).2]
      · rw [mput_neg
          (s₂.mem.write (HDRP (bp - GET_SIZE pfw))
            (PACK (GET_SIZE hw + GET_SIZE phw + GET_SIZE nhw) 0))
          _ _ hv2]
        simp only [Option.none_bind]
    · rw [mput_neg _ _ _ hv]
      simp only [Option.none_bind]

/-- Case-1 scenario: `S1` with the tags of the (allocated, surrounded by
allocated neighbors) block at payload 128 marked free, exactly the state
in which `mm_free` calls `coalesce`. -/
def T1 : MM := { S1 with mem := (S1.mem.write 120 32).write 144 32 }

/-- `S2` after `mm_free(160)`: block 160 free (head of class 0), 128 still
allocated. -/
def F2 : MM := match mm_free S2 160 with | some s => s | none => S2

/-- Case-2 scenario: `F2` with block 128's tags marked free; its next
neighbor 160 is free, its previous neighbor (the head-array block) is
allocated. -/
def T2 : MM := { F2 with mem := (F2.mem.write 120 32).write 144 32 }

/-- The state after `remove_free` unlinks block 160 in `T2`. -/
def T2r : MM := match remove_free T2 160 with | some s => s | none => T2

/-- `S2` after `mm_free(128)`: block 128 free (head of class 0), 160 still
allocated. -/
def F3 : MM := match mm_free S2 128 with | some s => s | none => S2

/-- Case-3 scenario: `F3` with block 160's tags marked free; its previous
neighbor 128 is free, its next neighbor is the epilogue (allocated). -/
def T3 : MM := { F3 with mem := (F3.mem.write 152 32).write 176 32 }

/-- The state after `remove_free` unlinks block 128 in `T3`. -/
def T3r : MM := match remove_free T3 128 with | some s => s | none => T3

/-- A third 32-byte allocated block at payload 192 on top of `S2`. -/
def S3 : MM := getS (mm_malloc S2 20 1) S2

/-- `S3` after `mm_free(128)`. -/
def F4a : MM := match mm_free S3 128 with | some s => s | none => S3

/-- `F4a` after `mm_free(192)`: blocks 128 and 192 free, 160 allocated
between them. -/
def F4b : MM := match mm_free F4a 192 with | some s => s | none => F4a

/-- Case-4 scenario: `F4b` with the middle block 160's tags marked free;
both neighbors are free. -/
def T4 : MM := { F4b with mem := (F4b.mem.write 152 32).write 176 32 }

/-- The state after `remove_free` unlinks block 192 in `T4`. -/
def T4r1 : MM := match remove_free T4 192 with | some s => s | none => T4

/-- The state after `remove_free` also unlinks block 128 in `T4r1`. -/
def T4r2 : MM := match remove_free T4r1 128 with | some s => s | none => T4r1

/-- Witness for `c6_coalesce_four_cases`: each of the four conjuncts
applied at a concrete heap — case 1 at `T1` (both neighbors allocated),
case 2 at `T2` (next free), case 3 at `T3` (previous free), case 4 at
`T4` (both free). -/
theorem c6_coalesce_four_cases_witness :
    (coalesce T1 128 = (do
      let s' ← insert_free T1 (GET_SIZE 32) 128
      some (128, s'))) ∧
    (coalesce T2 128 = (do
      let m₁ ← mput T2r.mem (HDRP 128) (PACK (GET_SIZE 32 + GET_SIZE 32) 0)
      let m₂ ← mput m₁ (128 + (GET_SIZE 32 + GET_SIZE 32) - DSIZE)
          (PACK (GET_SIZE 32 + GET_SIZE 32) 0)
      let s₂ ← insert_free { T2r with mem := m₂ } (GET_SIZE 32 + GET_SIZE 32) 128
      some (128, s₂))) ∧
    (coalesce T3 160 = (do
      let m₁ ← mput T3r.mem (160 + GET_SIZE 32 - DSIZE)
          (PACK (GET_SIZE 32 + GET_SIZE 32) 0)
      let m₂ ← mput m₁ (HDRP (160 - GET_SIZE 32)) (PACK (GET_SIZE 32 + GET_SIZE 32) 0)
      let s₂ ← insert_free { T3r with mem := m₂ } (GET_SIZE 32 + GET_SIZE 32)
          (160 - GET_SIZE 32)
      some (160 - GET_SIZE 32, s₂))) ∧
    (coalesce T4 160 = (do
      let m₁ ← mput T4r2.mem (HDRP (160 - GET_SIZE 32))
          (PACK (GET_SIZE 32 + GET_SIZE 32 + GET_SIZE 32) 0)
      let m₂ ← mput m₁ (160 + GET_SIZE 32 + GET_SIZE 32 - DSIZE)
          (PACK (GET_SIZE 32 + GET_SIZE 32 + GET_SIZE 32) 0)
      let s₃ ← insert_free { T4r2 with mem := m₂ }
          (GET_SIZE 32 + GET_SIZE 32 + GET_SIZE 32) (160 - GET_SIZE 32)
      some (160 - GET_SIZE 32, s₃))) :=
  ⟨c6_coalesce_four_cases.1 T1 128 32 81 81 1 (by decide) (by decide) (by decide)
      (by decide) (by decide) (by decide),
    c6_coalesce_four_cases.2.1 T2 T2r 128 32 81 81 32 (by decide) (by decide)
      (by decide) (by decide) (by decide) (by decide) rfl (by decide) (by decide)
      (by decide),
    c6_coalesce_four_cases.2.2.1 T3 T3r 160 32 32 32 1 (by decide) (by decide)
      (by decide) (by decide) (by decide) (by decide) rfl (by decide) (by decide)
      (by decide) (by decide) (by decide) (by decide),
    c6_coalesce_four_cases.2.2.2 T4 T4r1 T4r2 160 32 32 32 32 32 (by decide)
      (by decide) (by decide) (by decide) (by decide) (by decide) rfl (by decide)
      rfl (by decide) (by decide) (by decide) (by decide) (by decide) (by decide)
      (by decide) (by decide) (by decide)⟩
